import Mathlib

/- Shallow embedding of the route-construction engine of `view_mall.py` and of the
name-lookup helpers of `calculate_walking_time_between_2_shops.py`.

Python floats are modelled as real numbers, the Python `int` floor as an integer,
list indices as naturals.  List indexing `shops[i]` is modelled with `List.getD`
(every access performed by the engine is in range).  The `while` loops are modelled
with an explicit fuel argument that is large enough to reproduce the loop exactly:
the nearest-neighbour loop runs once per unvisited index, and the 2-opt outer loop
runs at most `max_passes` passes. -/

structure Shop where
  name : String
  floor : ℤ
  x : ℝ
  y : ℝ

instance : Inhabited Shop := ⟨⟨"", 0, 0, 0⟩⟩

/-- The store element at index `i` (`shops[i]` in Python; in range in every use). -/
def shopAt (shops : List Shop) (i : ℕ) : Shop := shops.getD i default

/-- Walking distance between two shops (`step_cost` in `view_mall.py`):
Euclidean distance on `(x, y)` (`math.hypot dx dy = sqrt (dx^2 + dy^2)`) plus a
linear penalty per floor crossed. -/
noncomputable def step_cost (a b : Shop) (floor_penalty : ℝ) : ℝ :=
  Real.sqrt ((a.x - b.x) ^ 2 + (a.y - b.y) ^ 2) +
    floor_penalty * |(a.floor : ℝ) - (b.floor : ℝ)|

/-- Total length of a visiting order (`path_length` in `view_mall.py`): the sum of
the step costs of consecutive pairs; the tour is open, there is no return edge. -/
noncomputable def path_length (order : List ℕ) (shops : List Shop)
    (floor_penalty : ℝ) : ℝ :=
  match order with
  | [] => 0
  | [_] => 0
  | i :: j :: rest =>
      step_cost (shopAt shops i) (shopAt shops j) floor_penalty +
        path_length (j :: rest) shops floor_penalty

/-- Python `min(iterable, key=key)`: the first element attaining the minimal key
(on a tie the earlier element is kept), `none` on an empty collection.  The sets
iterated by `nearest_neighbor` are modelled as ascending index lists. -/
def selectMin {κ : Type} [LinearOrder κ] (key : ℕ → κ) : List ℕ → Option ℕ
  | [] => none
  | x :: xs =>
      match selectMin key xs with
      | none => some x
      | some y => if key x ≤ key y then some x else some y

/-- The lexicographic `(floor, x, y)` start key used by `nearest_neighbor`. -/
noncomputable def lexKey (shops : List Shop) (i : ℕ) : ℤ ×ₗ (ℝ ×ₗ ℝ) :=
  toLex ((shopAt shops i).floor, toLex ((shopAt shops i).x, (shopAt shops i).y))

/-- The greedy extension loop of `nearest_neighbor`: repeatedly move the
cheapest unvisited index (from the current shop) into the order.  The fuel is
an upper bound on the number of iterations; the Python `while unvisited` loop
runs exactly `unvisited.length` times, so any fuel at least that large is exact. -/
noncomputable def nnLoop (shops : List Shop) (floor_penalty : ℝ) :
    ℕ → ℕ → List ℕ → List ℕ
  | 0, _, _ => []
  | fuel + 1, current, unvisited =>
      match selectMin
          (fun j => step_cost (shopAt shops current) (shopAt shops j) floor_penalty)
          unvisited with
      | none => []
      | some nxt => nxt :: nnLoop shops floor_penalty fuel nxt (unvisited.erase nxt)

/-- Nearest-neighbour construction (`nearest_neighbor` in `view_mall.py`): start
at the index with the smallest `(floor, x, y)` tuple, then greedily extend. -/
noncomputable def nearest_neighbor (shops : List Shop) (floor_penalty : ℝ) :
    List ℕ :=
  match selectMin (lexKey shops) (List.range shops.length) with
  | none => []
  | some start =>
      start ::
        nnLoop shops floor_penalty shops.length start
          ((List.range shops.length).erase start)

/-- The inner helper `seg_cost i1 i2 j1 j2` of `two_opt`:
`step_cost shops[order[i1]] shops[order[i2]] + step_cost shops[order[j1]] shops[order[j2]]`. -/
noncomputable def seg_cost (shops : List Shop) (floor_penalty : ℝ) (order : List ℕ)
    (i1 i2 j1 j2 : ℕ) : ℝ :=
  step_cost (shopAt shops (order.getD i1 0)) (shopAt shops (order.getD i2 0))
      floor_penalty +
    step_cost (shopAt shops (order.getD j1 0)) (shopAt shops (order.getD j2 0))
      floor_penalty

/-- The slice assignment `order[i+1:j+1] = reversed(order[i+1:j+1])`. -/
def reverseSegment (order : List ℕ) (i j : ℕ) : List ℕ :=
  order.take (i + 1) ++ ((order.drop (i + 1)).take (j - i)).reverse ++
    order.drop (j + 1)

/-- One comparison of the 2-opt scan at the pair `(i, j)`: if reconnecting the
two edges is shorter by more than the `1e-9` tolerance, reverse the interior
segment and record the improvement. -/
noncomputable def twoOptStep (shops : List Shop) (floor_penalty : ℝ)
    (st : List ℕ × Bool) (ij : ℕ × ℕ) : List ℕ × Bool :=
  if seg_cost shops floor_penalty st.1 ij.1 ij.2 (ij.1 + 1) (ij.2 + 1) + 1e-9 <
      seg_cost shops floor_penalty st.1 ij.1 (ij.1 + 1) ij.2 (ij.2 + 1) then
    (reverseSegment st.1 ij.1 ij.2, true)
  else st

/-- The pairs `(i, j)` scanned by one 2-opt pass, in scan order:
`i` in `range (n-3)` and `j` in `range (i+2) (n-1)`. -/
def twoOptPairs (n : ℕ) : List (ℕ × ℕ) :=
  (List.range (n - 3)).flatMap
    (fun i => (List.range' (i + 2) (n - 3 - i)).map (fun j => (i, j)))

/-- The `while improved and passes < max_passes` loop of `two_opt`: the fuel is
the number of passes still allowed.  Each pass folds the scan over all pairs,
applying every improving reversal immediately. -/
noncomputable def twoOptLoop (shops : List Shop) (floor_penalty : ℝ)
    (prs : List (ℕ × ℕ)) : ℕ → List ℕ → List ℕ
  | 0, order => order
  | fuel + 1, order =>
      if (List.foldl (twoOptStep shops floor_penalty) (order, false) prs).2 then
        twoOptLoop shops floor_penalty prs fuel
          (List.foldl (twoOptStep shops floor_penalty) (order, false) prs).1
      else (List.foldl (twoOptStep shops floor_penalty) (order, false) prs).1

/-- Classic 2-opt local improvement (`two_opt` in `view_mall.py`).  Orders of
length below four are returned unchanged.  `max_passes` is a Python `int`
(possibly non-positive, in which case the `while` guard fails at once and the
order is returned unchanged, matching `Int.toNat`). -/
noncomputable def two_opt (order : List ℕ) (shops : List Shop)
    (floor_penalty : ℝ) (max_passes : ℤ) : List ℕ :=
  if order.length < 4 then order
  else twoOptLoop shops floor_penalty (twoOptPairs order.length) max_passes.toNat order

/-- End-to-end entry point (`compute_efficient_path` in `view_mall.py`):
nearest neighbour, then 2-opt with the default `max_passes = 20`, then the
total length of the improved order. -/
noncomputable def compute_efficient_path (shops : List Shop)
    (floor_penalty : ℝ) : List ℕ × ℝ :=
  let init := nearest_neighbor shops floor_penalty
  let improved := two_opt init shops floor_penalty 20
  (improved, path_length improved shops floor_penalty)

/-- Lookup by name (`Mall.get_shop_coordinates` in
`calculate_walking_time_between_2_shops.py`): the `(x, y, floor)` triple of the
first stored shop with the requested name, `none` when no record matches. -/
def get_shop_coordinates (shops : List Shop) (shop_name : String) :
    Option (ℝ × ℝ × ℤ) :=
  match shops with
  | [] => none
  | s :: rest =>
      if s.name = shop_name then some (s.x, s.y, s.floor)
      else get_shop_coordinates rest shop_name

/-- Walking time between two shops looked up by name (`Mall.calculate_walking_time`):
the string `"Shop not found."` when either lookup fails, otherwise the Manhattan
distance plus a 30-second elevator time when the floors differ. -/
noncomputable def calculate_walking_time (shops : List Shop)
    (shop1_name shop2_name : String) : Except String ℝ :=
  match get_shop_coordinates shops shop1_name,
      get_shop_coordinates shops shop2_name with
  | some s1, some s2 =>
      if s1.2.2 ≠ s2.2.2 then
        Except.ok (|s1.1 - s2.1| + |s1.2.1 - s2.2.1| + 30)
      else
        Except.ok (|s1.1 - s2.1| + |s1.2.1 - s2.2.1|)
  | _, _ => Except.error "Shop not found."

/- ## Basic facts about `selectMin` (the model of Python `min(·, key=·)`) -/

theorem selectMin_eq_none {κ : Type} [LinearOrder κ] (key : ℕ → κ) (l : List ℕ) :
    selectMin key l = none ↔ l = [] := by
  induction l with
  | nil => simp [selectMin]
  | cons x xs ih =>
      simp only [selectMin]
      cases h : selectMin key xs with
      | none => simp
      | some y => simp only; split <;> simp

theorem selectMin_mem {κ : Type} [LinearOrder κ] (key : ℕ → κ) :
    ∀ {l : List ℕ} {z : ℕ}, selectMin key l = some z → z ∈ l := by
  intro l
  induction l with
  | nil => intro z h; simp [selectMin] at h
  | cons x xs ih =>
      intro z h
      simp only [selectMin] at h
      cases hsel : selectMin key xs with
      | none => rw [hsel] at h; dsimp only at h; simp at h; simp [h]
      | some y =>
          rw [hsel] at h
          dsimp only at h
          by_cases hxy : key x ≤ key y
          · rw [if_pos hxy] at h; simp at h; simp [h]
          · rw [if_neg hxy] at h; simp at h
            exact List.mem_cons_of_mem _ (ih (h ▸ hsel))

theorem selectMin_le {κ : Type} [LinearOrder κ] (key : ℕ → κ) :
    ∀ {l : List ℕ} {z : ℕ}, selectMin key l = some z →
      ∀ y ∈ l, key z ≤ key y := by
  intro l
  induction l with
  | nil => intro z h; simp [selectMin] at h
  | cons x xs ih =>
      intro z h y hy
      simp only [selectMin] at h
      cases hsel : selectMin key xs with
      | none =>
          rw [hsel] at h
          dsimp only at h
          simp at h
          have hxs : xs = [] := (selectMin_eq_none key xs).mp hsel
          subst hxs
          simp at hy
          subst hy
          simp [h]
      | some w =>
          rw [hsel] at h
          dsimp only at h
          rcases List.mem_cons.mp hy with hyx | hyxs
          · by_cases hxw : key x ≤ key w
            · rw [if_pos hxw] at h; simp at h
              rw [hyx, ← h]
            · rw [if_neg hxw] at h; simp at h
              rw [hyx, ← h]
              exact le_of_lt (lt_of_not_le hxw)
          · by_cases hxw : key x ≤ key w
            · rw [if_pos hxw] at h; simp at h; subst h
              exact le_trans hxw (ih hsel y hyxs)
            · rw [if_neg hxw] at h; simp at h; subst h
              exact ih hsel y hyxs

/- ## Basic facts about the cost model -/

theorem step_cost_comm (a b : Shop) (floor_penalty : ℝ) :
    step_cost a b floor_penalty = step_cost b a floor_penalty := by
  have h1 : (a.x - b.x) ^ 2 + (a.y - b.y) ^ 2 = (b.x - a.x) ^ 2 + (b.y - a.y) ^ 2 := by
    ring
  rw [step_cost, step_cost, h1, abs_sub_comm]

theorem step_cost_nonneg (a b : Shop) (floor_penalty : ℝ) (h : 0 ≤ floor_penalty) :
    0 ≤ step_cost a b floor_penalty :=
  add_nonneg (Real.sqrt_nonneg _) (mul_nonneg h (abs_nonneg _))

/-- Claim C6: for all locations `a` and `b` and every floor penalty `p ≥ 0`,
`cost (a, b, p) = cost (b, a, p)`. -/
theorem claim_C6_step_cost_symm (a b : Shop) (floor_penalty : ℝ)
    (h : 0 ≤ floor_penalty) :
    step_cost a b floor_penalty = step_cost b a floor_penalty :=
  step_cost_comm a b floor_penalty

theorem claim_C6_witness :
    0 ≤ (50 : ℝ) ∧
      step_cost ⟨"A", 0, 1, 2⟩ ⟨"B", 3, 4, 5⟩ 50 =
        step_cost ⟨"B", 3, 4, 5⟩ ⟨"A", 0, 1, 2⟩ 50 :=
  ⟨by norm_num, claim_C6_step_cost_symm ⟨"A", 0, 1, 2⟩ ⟨"B", 3, 4, 5⟩ 50 (by norm_num)⟩

/-- Claim C3 (amended): for a strictly positive floor penalty,
`cost (a, b, p) = 0` iff `a` and `b` have the same `x`, the same `y` and the
same floor.  (At `p = 0` the floor condition is lost, see the counterexample.) -/
theorem claim_C3_step_cost_zero_iff (a b : Shop) (floor_penalty : ℝ)
    (h : 0 < floor_penalty) :
    step_cost a b floor_penalty = 0 ↔
      a.x = b.x ∧ a.y = b.y ∧ a.floor = b.floor := by
  rw [step_cost,
    add_eq_zero_iff_of_nonneg (Real.sqrt_nonneg _)
      (mul_nonneg h.le (abs_nonneg _))]
  rw [Real.sqrt_eq_zero (by positivity),
    add_eq_zero_iff_of_nonneg (sq_nonneg _) (sq_nonneg _)]
  constructor
  · rintro ⟨⟨hx, hy⟩, hf⟩
    have hx2 : a.x = b.x := by
      have := pow_eq_zero_iff (n := 2) (by norm_num) |>.mp hx
      linarith [sub_eq_zero.mp this]
    have hy2 : a.y = b.y := by
      have := pow_eq_zero_iff (n := 2) (by norm_num) |>.mp hy
      linarith [sub_eq_zero.mp this]
    have hf2 : a.floor = b.floor := by
      rcases mul_eq_zero.mp hf with hp | habs
      · exact absurd hp h.ne'
      · have : (a.floor : ℝ) = (b.floor : ℝ) := by
          have := abs_eq_zero.mp habs
          linarith [sub_eq_zero.mp this]
        exact_mod_cast this
    exact ⟨hx2, hy2, hf2⟩
  · rintro ⟨hx, hy, hf⟩
    refine ⟨⟨?_, ?_⟩, ?_⟩
    · simp [hx]
    · simp [hy]
    · simp [hf]

/-- Claim C3 fails as stated: with `floor_penalty = 0` (which is allowed by the
claim) the cost between two shops that differ only in floor is `0`. -/
theorem claim_C3_counterexample :
    ¬ (step_cost ⟨"P", 0, 0, 0⟩ ⟨"Q", 1, 0, 0⟩ 0 = 0 ↔
        (Shop.mk "P" 0 0 0).x = (Shop.mk "Q" 1 0 0).x ∧
          (Shop.mk "P" 0 0 0).y = (Shop.mk "Q" 1 0 0).y ∧
          (Shop.mk "P" 0 0 0).floor = (Shop.mk "Q" 1 0 0).floor) := by
  intro hiff
  have hzero : step_cost ⟨"P", 0, 0, 0⟩ ⟨"Q", 1, 0, 0⟩ 0 = 0 := by
    rw [step_cost]
    norm_num
  have := (hiff.mp hzero).2.2
  simp at this

theorem claim_C3_witness :
    0 < (7 : ℝ) ∧
      (step_cost ⟨"P", 2, 3, 4⟩ ⟨"Q", 2, 3, 4⟩ 7 = 0 ↔
        (Shop.mk "P" 2 3 4).x = (Shop.mk "Q" 2 3 4).x ∧
          (Shop.mk "P" 2 3 4).y = (Shop.mk "Q" 2 3 4).y ∧
          (Shop.mk "P" 2 3 4).floor = (Shop.mk "Q" 2 3 4).floor) :=
  ⟨by norm_num, claim_C3_step_cost_zero_iff ⟨"P", 2, 3, 4⟩ ⟨"Q", 2, 3, 4⟩ 7 (by norm_num)⟩

/-- Claim C8: the empty store is not an error: the engine returns the empty
order and total cost `0`. -/
theorem claim_C8_empty_input (floor_penalty : ℝ) :
    compute_efficient_path [] floor_penalty = ([], 0) := rfl

/- ## The orders produced by the engine are permutations -/

theorem nnLoop_perm (shops : List Shop) (floor_penalty : ℝ) :
    ∀ (fuel current : ℕ) (unvisited : List ℕ),
      unvisited.length ≤ fuel →
      (nnLoop shops floor_penalty fuel current unvisited).Perm unvisited := by
  intro fuel
  induction fuel with
  | zero =>
      intro current unvisited h
      have : unvisited = [] := List.eq_nil_of_length_eq_zero (Nat.le_zero.mp h)
      simp [nnLoop, this]
  | succ fuel ih =>
      intro current unvisited h
      rw [nnLoop]
      cases hsel : selectMin
          (fun j => step_cost (shopAt shops current) (shopAt shops j) floor_penalty)
          unvisited with
      | none =>
          have : unvisited = [] := (selectMin_eq_none _ _).mp hsel
          simp [this]
      | some nxt =>
          have hmem : nxt ∈ unvisited := selectMin_mem _ hsel
          have hpos : 0 < unvisited.length := List.length_pos.mpr (by
            intro hnil; rw [hnil] at hmem; simp at hmem)
          have hlen : (unvisited.erase nxt).length ≤ fuel := by
            rw [List.length_erase_of_mem hmem]; omega
          exact ((ih nxt _ hlen).cons nxt).trans (List.perm_cons_erase hmem).symm

theorem nearest_neighbor_perm (shops : List Shop) (floor_penalty : ℝ) :
    (nearest_neighbor shops floor_penalty).Perm (List.range shops.length) := by
  rw [nearest_neighbor]
  cases hsel : selectMin (lexKey shops) (List.range shops.length) with
  | none =>
      have : List.range shops.length = [] := (selectMin_eq_none _ _).mp hsel
      simp [this]
  | some start =>
      have hmem : start ∈ List.range shops.length := selectMin_mem _ hsel
      have hlen : ((List.range shops.length).erase start).length ≤ shops.length := by
        rw [List.length_erase_of_mem hmem, List.length_range]; omega
      exact ((nnLoop_perm shops floor_penalty shops.length start _ hlen).cons
        start).trans (List.perm_cons_erase hmem).symm

theorem reverseSegment_perm (o : List ℕ) (i j : ℕ) (hij : i ≤ j) :
    (reverseSegment o i j).Perm o := by
  have hdrop : (o.drop (i + 1)).drop (j - i) = o.drop (j + 1) := by
    rw [List.drop_drop]
    congr 1
    omega
  rw [reverseSegment, List.append_assoc]
  refine List.Perm.trans
    (List.Perm.append_left _
      (List.Perm.append_right _ (List.reverse_perm _))) ?_
  rw [← hdrop, List.take_append_drop, List.take_append_drop]

theorem twoOptStep_fst_perm (shops : List Shop) (floor_penalty : ℝ)
    (st : List ℕ × Bool) (ij : ℕ × ℕ) (hij : ij.1 ≤ ij.2) :
    (twoOptStep shops floor_penalty st ij).1.Perm st.1 := by
  rw [twoOptStep]
  split
  · exact reverseSegment_perm _ _ _ hij
  · exact List.Perm.refl _

theorem twoOptPairs_bounds {n : ℕ} {p : ℕ × ℕ} (hp : p ∈ twoOptPairs n) :
    p.1 + 2 ≤ p.2 ∧ p.2 + 1 < n := by
  simp only [twoOptPairs, List.mem_flatMap, List.mem_map, List.mem_range,
    List.mem_range'] at hp
  obtain ⟨i, hi, j, hj, rfl⟩ := hp
  omega

theorem twoOptFold_fst_perm (shops : List Shop) (floor_penalty : ℝ) :
    ∀ (prs : List (ℕ × ℕ)), (∀ p ∈ prs, p.1 ≤ p.2) →
      ∀ (st : List ℕ × Bool),
        (List.foldl (twoOptStep shops floor_penalty) st prs).1.Perm st.1 := by
  intro prs
  induction prs with
  | nil => intro _ st; exact List.Perm.refl _
  | cons p ps ih =>
      intro hmem st
      rw [List.foldl_cons]
      exact (ih (fun q hq => hmem q (List.mem_cons_of_mem _ hq)) _).trans
        (twoOptStep_fst_perm shops floor_penalty st p
          (hmem p (List.mem_cons_self p ps)))

theorem twoOptLoop_perm (shops : List Shop) (floor_penalty : ℝ)
    (prs : List (ℕ × ℕ)) (hprs : ∀ p ∈ prs, p.1 ≤ p.2) :
    ∀ (fuel : ℕ) (o : List ℕ),
      (twoOptLoop shops floor_penalty prs fuel o).Perm o := by
  intro fuel
  induction fuel with
  | zero => intro o; simp [twoOptLoop]
  | succ fuel ih =>
      intro o
      rw [twoOptLoop]
      split
      · exact (ih _).trans (twoOptFold_fst_perm shops floor_penalty prs hprs _)
      · exact twoOptFold_fst_perm shops floor_penalty prs hprs _

theorem two_opt_perm (o : List ℕ) (shops : List Shop) (floor_penalty : ℝ)
    (max_passes : ℤ) :
    (two_opt o shops floor_penalty max_passes).Perm o := by
  rw [two_opt]
  split
  · exact List.Perm.refl _
  · exact twoOptLoop_perm shops floor_penalty _
      (fun p hp => by have := twoOptPairs_bounds hp; omega) _ _

theorem compute_efficient_path_fst (shops : List Shop) (floor_penalty : ℝ) :
    (compute_efficient_path shops floor_penalty).1 =
      two_opt (nearest_neighbor shops floor_penalty) shops floor_penalty 20 := rfl

/-- Claim C1: on every input, the order built by the nearest-neighbour
construction is a permutation of `0 .. n-1`, and so is the order returned by
`compute_efficient_path`: its length is `n`, it has no duplicates and omits no
index below `n`. -/
theorem claim_C1_permutation (shops : List Shop) (floor_penalty : ℝ) :
    (nearest_neighbor shops floor_penalty).Perm (List.range shops.length) ∧
      (compute_efficient_path shops floor_penalty).1.Perm
        (List.range shops.length) ∧
      (compute_efficient_path shops floor_penalty).1.length = shops.length ∧
      (compute_efficient_path shops floor_penalty).1.Nodup ∧
      ∀ i : ℕ,
        (i ∈ (compute_efficient_path shops floor_penalty).1 ↔ i < shops.length) := by
  have h1 := nearest_neighbor_perm shops floor_penalty
  have h2 : (compute_efficient_path shops floor_penalty).1.Perm
      (List.range shops.length) := by
    rw [compute_efficient_path_fst]
    exact (two_opt_perm _ shops floor_penalty 20).trans h1
  refine ⟨h1, h2, ?_, ?_, ?_⟩
  · have := h2.length_eq
    simpa [List.length_range] using this
  · exact h2.nodup_iff.mpr (List.nodup_range _)
  · intro i
    rw [h2.mem_iff, List.mem_range]

/- ## Index bookkeeping for lists, used by the 2-opt cost analysis -/

theorem getD_default_irrel (l : List ℕ) :
    ∀ (n d₁ d₂ : ℕ), n < l.length → l.getD n d₁ = l.getD n d₂ := by
  induction l with
  | nil => intro n d₁ d₂ h; simp at h
  | cons x xs ih =>
      intro n d₁ d₂ h
      cases n with
      | zero => rfl
      | succ m =>
          simp only [List.getD_cons_succ]
          exact ih m d₁ d₂ (by simp at h; omega)

theorem getD_drop (l : List ℕ) :
    ∀ (k m d : ℕ), (l.drop k).getD m d = l.getD (k + m) d := by
  induction l with
  | nil => intro k m d; simp
  | cons x xs ih =>
      intro k m d
      cases k with
      | zero => simp
      | succ k2 =>
          simp only [List.drop_succ_cons]
          rw [ih k2 m d]
          have harith : k2 + 1 + m = (k2 + m) + 1 := by omega
          rw [harith, List.getD_cons_succ]

theorem getD_take (l : List ℕ) :
    ∀ (k m d : ℕ), m < k → (l.take k).getD m d = l.getD m d := by
  induction l with
  | nil => intro k m d _; simp
  | cons x xs ih =>
      intro k m d hmk
      cases k with
      | zero => omega
      | succ k2 =>
          rw [List.take_succ_cons]
          cases m with
          | zero => rfl
          | succ m2 =>
              simp only [List.getD_cons_succ]
              exact ih k2 m2 d (by omega)

theorem headD_eq_getD (l : List ℕ) (d : ℕ) : l.headD d = l.getD 0 d := by
  cases l <;> rfl

theorem getLastD_eq_getD (l : List ℕ) :
    ∀ d : ℕ, l.getLastD d = l.getD (l.length - 1) d := by
  induction l with
  | nil => intro d; rfl
  | cons x xs ih =>
      intro d
      cases xs with
      | nil => rfl
      | cons y ys =>
          rw [List.getLastD_cons, ih x]
          simp only [List.length_cons, List.getD_cons_succ, Nat.add_sub_cancel]
          exact getD_default_irrel _ _ x d (by simp)

theorem getLastD_default_irrel (l : List ℕ) (d₁ d₂ : ℕ) (h : l ≠ []) :
    l.getLastD d₁ = l.getLastD d₂ := by
  rw [getLastD_eq_getD, getLastD_eq_getD]
  exact getD_default_irrel _ _ _ _ (by
    have := List.length_pos.mpr h
    omega)

theorem headD_append (A B : List ℕ) (d : ℕ) (h : A ≠ []) :
    (A ++ B).headD d = A.headD d := by
  cases A with
  | nil => exact absurd rfl h
  | cons a as => rfl

theorem getLastD_append (A B : List ℕ) (d : ℕ) (h : B ≠ []) :
    (A ++ B).getLastD d = B.getLastD d := by
  induction A generalizing d with
  | nil => rfl
  | cons a as ih =>
      rw [List.cons_append, List.getLastD_cons, ih a]
      exact getLastD_default_irrel B a d h

theorem headD_reverse (l : List ℕ) (d : ℕ) : l.reverse.headD d = l.getLastD d := by
  induction l with
  | nil => rfl
  | cons x xs ih =>
      cases xs with
      | nil => rfl
      | cons y ys =>
          rw [List.reverse_cons,
            headD_append _ _ _ (by simp),
            ih]
          show (y :: ys).getLastD d = (y :: ys).getLastD x
          exact getLastD_default_irrel _ d x (by simp)

theorem getLastD_reverse (l : List ℕ) (d : ℕ) :
    l.reverse.getLastD d = l.headD d := by
  cases l with
  | nil => rfl
  | cons x xs =>
      rw [List.reverse_cons, getLastD_append _ _ _ (by simp)]
      rfl

/- ## Path-length algebra -/

theorem path_length_nil (shops : List Shop) (floor_penalty : ℝ) :
    path_length [] shops floor_penalty = 0 := rfl

theorem path_length_single (shops : List Shop) (floor_penalty : ℝ) (a : ℕ) :
    path_length [a] shops floor_penalty = 0 := rfl

theorem path_length_cons_cons (shops : List Shop) (floor_penalty : ℝ)
    (a b : ℕ) (rest : List ℕ) :
    path_length (a :: b :: rest) shops floor_penalty =
      step_cost (shopAt shops a) (shopAt shops b) floor_penalty +
        path_length (b :: rest) shops floor_penalty := rfl

theorem path_length_append (shops : List Shop) (floor_penalty : ℝ) :
    ∀ (A B : List ℕ), A ≠ [] → B ≠ [] →
      path_length (A ++ B) shops floor_penalty =
        path_length A shops floor_penalty +
          step_cost (shopAt shops (A.getLastD 0)) (shopAt shops (B.headD 0))
            floor_penalty +
          path_length B shops floor_penalty := by
  intro A
  induction A with
  | nil => intro B h _; exact absurd rfl h
  | cons a as ih =>
      intro B _ hB
      cases as with
      | nil =>
          cases B with
          | nil => exact absurd rfl hB
          | cons b bs =>
              rw [List.singleton_append, path_length_cons_cons,
                path_length_single]
              simp [List.getLastD_cons]
      | cons a2 as2 =>
          have hstep := ih B (by simp) hB
          have hlast : ((a :: a2 :: as2).getLastD 0) = ((a2 :: as2).getLastD 0) := by
            rw [List.getLastD_cons]
            exact getLastD_default_irrel _ a 0 (by simp)
          have h1 : path_length ((a :: a2 :: as2) ++ B) shops floor_penalty =
              step_cost (shopAt shops a) (shopAt shops a2) floor_penalty +
                path_length ((a2 :: as2) ++ B) shops floor_penalty := rfl
          rw [h1, hstep, path_length_cons_cons, hlast]
          ring

theorem path_length_reverse (shops : List Shop) (floor_penalty : ℝ) :
    ∀ (l : List ℕ),
      path_length l.reverse shops floor_penalty =
        path_length l shops floor_penalty := by
  intro l
  induction l with
  | nil => rfl
  | cons x xs ih =>
      cases xs with
      | nil => rfl
      | cons y ys =>
          rw [List.reverse_cons,
            path_length_append shops floor_penalty _ _ (by simp) (by simp),
            ih, path_length_single, path_length_cons_cons]
          have hlast : ((y :: ys).reverse.getLastD 0) = y := by
            rw [getLastD_reverse]
            rfl
          rw [hlast]
          show path_length (y :: ys) shops floor_penalty +
              step_cost (shopAt shops y) (shopAt shops x) floor_penalty + 0 = _
          rw [step_cost_comm]
          ring

/-- One improving 2-opt reversal changes the tour length by exactly
`(new pair of edges) - (old pair of edges)`: the length of the reversed interior
segment is unchanged because the step cost is symmetric. -/
theorem path_length_reverseSegment (shops : List Shop) (floor_penalty : ℝ)
    (o : List ℕ) (i j : ℕ) (hij : i + 2 ≤ j) (hj : j + 1 < o.length) :
    path_length (reverseSegment o i j) shops floor_penalty =
      path_length o shops floor_penalty
        - (step_cost (shopAt shops (o.getD i 0)) (shopAt shops (o.getD (i+1) 0))
              floor_penalty +
           step_cost (shopAt shops (o.getD j 0)) (shopAt shops (o.getD (j+1) 0))
              floor_penalty)
        + (step_cost (shopAt shops (o.getD i 0)) (shopAt shops (o.getD j 0))
              floor_penalty +
           step_cost (shopAt shops (o.getD (i+1) 0)) (shopAt shops (o.getD (j+1) 0))
              floor_penalty) := by
  have hTlen : (o.take (i+1)).length = i + 1 := by
    rw [List.length_take]; omega
  have hTne : o.take (i+1) ≠ [] := by
    intro hnil; rw [hnil] at hTlen; simp at hTlen
  have hSlen : ((o.drop (i+1)).take (j-i)).length = j - i := by
    rw [List.length_take, List.length_drop]; omega
  have hSne : (o.drop (i+1)).take (j-i) ≠ [] := by
    intro hnil; rw [hnil] at hSlen; simp at hSlen; omega
  have hQlen : (o.drop (j+1)).length = o.length - (j+1) := List.length_drop _ _
  have hQne : o.drop (j+1) ≠ [] := by
    intro hnil; rw [hnil] at hQlen; simp at hQlen; omega
  have hSQne : (o.drop (i+1)).take (j-i) ++ o.drop (j+1) ≠ [] := by
    intro hnil; exact hSne (List.append_eq_nil.mp hnil).1
  have hSRne : ((o.drop (i+1)).take (j-i)).reverse ++ o.drop (j+1) ≠ [] := by
    intro hnil
    have h2 := (List.append_eq_nil.mp hnil).1
    rw [List.reverse_eq_nil_iff] at h2
    exact hSne h2
  have hdecomp : o = o.take (i+1) ++ ((o.drop (i+1)).take (j-i) ++ o.drop (j+1)) := by
    have hdd : (o.drop (i+1)).drop (j-i) = o.drop (j+1) := by
      rw [List.drop_drop]; congr 1; omega
    rw [← hdd, List.take_append_drop, List.take_append_drop]
  have hTlast : (o.take (i+1)).getLastD 0 = o.getD i 0 := by
    rw [getLastD_eq_getD, hTlen]
    have h3 : i + 1 - 1 = i := by omega
    rw [h3]
    exact getD_take o (i+1) i 0 (by omega)
  have hShead : ((o.drop (i+1)).take (j-i)).headD 0 = o.getD (i+1) 0 := by
    rw [headD_eq_getD, getD_take _ _ _ _ (by omega), getD_drop]
  have hSlast : ((o.drop (i+1)).take (j-i)).getLastD 0 = o.getD j 0 := by
    rw [getLastD_eq_getD, hSlen, getD_take _ _ _ _ (by omega), getD_drop]
    congr 1
    omega
  have hQhead : (o.drop (j+1)).headD 0 = o.getD (j+1) 0 := by
    rw [headD_eq_getD, getD_drop]
  have hexp : path_length o shops floor_penalty =
      path_length (o.take (i+1)) shops floor_penalty +
        step_cost (shopAt shops (o.getD i 0)) (shopAt shops (o.getD (i+1) 0))
          floor_penalty +
        (path_length ((o.drop (i+1)).take (j-i)) shops floor_penalty +
          step_cost (shopAt shops (o.getD j 0)) (shopAt shops (o.getD (j+1) 0))
            floor_penalty +
          path_length (o.drop (j+1)) shops floor_penalty) := by
    conv_lhs => rw [hdecomp]
    rw [path_length_append shops floor_penalty _ _ hTne hSQne,
      path_length_append shops floor_penalty _ _ hSne hQne,
      headD_append _ _ _ hSne, hTlast, hShead, hSlast, hQhead]
  have hexp2 : path_length (reverseSegment o i j) shops floor_penalty =
      path_length (o.take (i+1)) shops floor_penalty +
        step_cost (shopAt shops (o.getD i 0)) (shopAt shops (o.getD j 0))
          floor_penalty +
        (path_length ((o.drop (i+1)).take (j-i)) shops floor_penalty +
          step_cost (shopAt shops (o.getD (i+1) 0)) (shopAt shops (o.getD (j+1) 0))
            floor_penalty +
          path_length (o.drop (j+1)) shops floor_penalty) := by
    rw [reverseSegment, List.append_assoc,
      path_length_append shops floor_penalty _ _ hTne hSRne,
      path_length_append shops floor_penalty _ _ (by simpa using hSne) hQne,
      headD_append _ _ _ (by simpa using hSne),
      path_length_reverse, headD_reverse, getLastD_reverse,
      hTlast, hShead, hSlast, hQhead]
  rw [hexp2, hexp]
  ring

theorem twoOptStep_cost_le (shops : List Shop) (floor_penalty : ℝ)
    (st : List ℕ × Bool) (ij : ℕ × ℕ) (hij : ij.1 + 2 ≤ ij.2)
    (hj : ij.2 + 1 < st.1.length) :
    path_length (twoOptStep shops floor_penalty st ij).1 shops floor_penalty ≤
      path_length st.1 shops floor_penalty := by
  rw [twoOptStep]
  split
  · rename_i hcond
    show path_length (reverseSegment st.1 ij.1 ij.2) shops floor_penalty ≤ _
    rw [path_length_reverseSegment shops floor_penalty st.1 ij.1 ij.2 hij hj]
    rw [seg_cost, seg_cost] at hcond
    have htol : (0 : ℝ) < 1e-9 := by norm_num
    linarith
  · exact le_refl _

theorem twoOptFold_cost_le (shops : List Shop) (floor_penalty : ℝ) (n : ℕ) :
    ∀ (prs : List (ℕ × ℕ)), (∀ p ∈ prs, p.1 + 2 ≤ p.2 ∧ p.2 + 1 < n) →
      ∀ (st : List ℕ × Bool), st.1.length = n →
        path_length (List.foldl (twoOptStep shops floor_penalty) st prs).1 shops
            floor_penalty ≤
          path_length st.1 shops floor_penalty := by
  intro prs
  induction prs with
  | nil => intro _ st _; exact le_refl _
  | cons p ps ih =>
      intro hmem st hlen
      rw [List.foldl_cons]
      have hb := hmem p (List.mem_cons_self p ps)
      have hj : p.2 + 1 < st.1.length := by omega
      have hstep := twoOptStep_cost_le shops floor_penalty st p hb.1 hj
      have hlen2 : (twoOptStep shops floor_penalty st p).1.length = n := by
        rw [(twoOptStep_fst_perm shops floor_penalty st p (by omega)).length_eq,
          hlen]
      exact le_trans
        (ih (fun q hq => hmem q (List.mem_cons_of_mem _ hq)) _ hlen2) hstep

theorem twoOptLoop_cost_le (shops : List Shop) (floor_penalty : ℝ) (n : ℕ)
    (prs : List (ℕ × ℕ)) (hprs : ∀ p ∈ prs, p.1 + 2 ≤ p.2 ∧ p.2 + 1 < n) :
    ∀ (fuel : ℕ) (o : List ℕ), o.length = n →
      path_length (twoOptLoop shops floor_penalty prs fuel o) shops
          floor_penalty ≤
        path_length o shops floor_penalty := by
  intro fuel
  induction fuel with
  | zero => intro o _; exact le_refl _
  | succ fuel ih =>
      intro o hlen
      rw [twoOptLoop]
      split
      · have hfold := twoOptFold_cost_le shops floor_penalty n prs hprs
          (o, false) hlen
        have hlen2 :
            (List.foldl (twoOptStep shops floor_penalty) (o, false) prs).1.length
              = n := by
          rw [(twoOptFold_fst_perm shops floor_penalty prs
            (fun p hp => by have := hprs p hp; omega) (o, false)).length_eq]
          exact hlen
        exact le_trans (ih _ hlen2) hfold
      · exact twoOptFold_cost_le shops floor_penalty n prs hprs (o, false) hlen

theorem two_opt_cost_le (o : List ℕ) (shops : List Shop) (floor_penalty : ℝ)
    (max_passes : ℤ) :
    path_length (two_opt o shops floor_penalty max_passes) shops floor_penalty ≤
      path_length o shops floor_penalty := by
  rw [two_opt]
  split
  · exact le_refl _
  · exact twoOptLoop_cost_le shops floor_penalty o.length _
      (fun p hp => twoOptPairs_bounds hp) _ _ rfl

/-- Claim C2: for every store, every non-negative floor penalty and every pass
budget, the total cost of the 2-opt result is at most the total cost of the
input order; in particular the tour returned by `compute_efficient_path` never
costs more than the nearest-neighbour tour it starts from. -/
theorem claim_C2_two_opt_cost_le (o : List ℕ) (shops : List Shop)
    (floor_penalty : ℝ) (max_passes : ℤ) (h : 0 ≤ floor_penalty) :
    path_length (two_opt o shops floor_penalty max_passes) shops floor_penalty ≤
        path_length o shops floor_penalty ∧
      path_length (compute_efficient_path shops floor_penalty).1 shops
          floor_penalty ≤
        path_length (nearest_neighbor shops floor_penalty) shops floor_penalty := by
  refine ⟨two_opt_cost_le o shops floor_penalty max_passes, ?_⟩
  rw [compute_efficient_path_fst]
  exact two_opt_cost_le _ shops floor_penalty 20

/- ## Lookup by name -/

theorem get_shop_coordinates_eq_none (shops : List Shop) (nm : String) :
    get_shop_coordinates shops nm = none ↔ ∀ s ∈ shops, s.name ≠ nm := by
  induction shops with
  | nil => simp [get_shop_coordinates]
  | cons s rest ih =>
      rw [get_shop_coordinates]
      by_cases hs : s.name = nm
      · rw [if_pos hs]
        simp [hs]
      · rw [if_neg hs, ih]
        simp [hs]

theorem get_shop_coordinates_first (nm : String) :
    ∀ (pre : List Shop) (s : Shop) (post : List Shop),
      s.name = nm → (∀ t ∈ pre, t.name ≠ nm) →
      get_shop_coordinates (pre ++ s :: post) nm = some (s.x, s.y, s.floor) := by
  intro pre
  induction pre with
  | nil =>
      intro s post hs _
      rw [List.nil_append, get_shop_coordinates, if_pos hs]
  | cons p pre ih =>
      intro s post hs hpre
      rw [List.cons_append, get_shop_coordinates,
        if_neg (hpre p (List.mem_cons_self p pre))]
      exact ih s post hs (fun t ht => hpre t (List.mem_cons_of_mem _ ht))

theorem calculate_walking_time_not_found (shops : List Shop) (n1 n2 : String)
    (h : get_shop_coordinates shops n1 = none ∨
      get_shop_coordinates shops n2 = none) :
    calculate_walking_time shops n1 n2 = Except.error "Shop not found." := by
  rcases h with h | h
  · rw [calculate_walking_time, h]
  · rw [calculate_walking_time, h]
    cases get_shop_coordinates shops n1 <;> rfl

/-- Claim C9: name lookup returns `none` (and the walking-time convenience the
`"Shop not found."` error) exactly when no stored record has the requested
name, and among several records of the same name the first stored one wins. -/
theorem claim_C9_lookup (shops : List Shop) (shop_name n1 n2 : String) :
    (get_shop_coordinates shops shop_name = none ↔
        ∀ s ∈ shops, s.name ≠ shop_name) ∧
      (∀ (pre : List Shop) (s : Shop) (post : List Shop),
          shops = pre ++ s :: post → s.name = shop_name →
          (∀ t ∈ pre, t.name ≠ shop_name) →
          get_shop_coordinates shops shop_name = some (s.x, s.y, s.floor)) ∧
      ((get_shop_coordinates shops n1 = none ∨
          get_shop_coordinates shops n2 = none) →
        calculate_walking_time shops n1 n2 = Except.error "Shop not found.") := by
  refine ⟨get_shop_coordinates_eq_none shops shop_name, ?_, ?_⟩
  · intro pre s post hdecomp hs hpre
    rw [hdecomp]
    exact get_shop_coordinates_first shop_name pre s post hs hpre
  · exact calculate_walking_time_not_found shops n1 n2

theorem claim_C9_witness :
    get_shop_coordinates
        [⟨"A", 0, 1, 2⟩, ⟨"A", 1, 3, 4⟩, ⟨"B", 0, 5, 6⟩] "A" =
      some (1, 2, 0) ∧
      calculate_walking_time [⟨"A", 0, 1, 2⟩] "A" "Z" =
        Except.error "Shop not found." := by
  constructor
  · exact (claim_C9_lookup
      [⟨"A", 0, 1, 2⟩, ⟨"A", 1, 3, 4⟩, ⟨"B", 0, 5, 6⟩] "A" "A" "Z").2.1
      [] ⟨"A", 0, 1, 2⟩ [⟨"A", 1, 3, 4⟩, ⟨"B", 0, 5, 6⟩] rfl rfl (by simp)
  · refine (claim_C9_lookup [⟨"A", 0, 1, 2⟩] "A" "A" "Z").2.2 (Or.inr ?_)
    rw [(claim_C9_lookup [⟨"A", 0, 1, 2⟩] "Z" "A" "Z").1]
    simp

/- ## 2-opt never touches the endpoints of the order -/

theorem reverseSegment_headD (o : List ℕ) (i j : ℕ) (ho : o ≠ []) :
    (reverseSegment o i j).headD 0 = o.headD 0 := by
  have hTne : o.take (i + 1) ≠ [] := by
    intro hnil
    have h2 : (o.take (i + 1)).length = 0 := by rw [hnil]; rfl
    rw [List.length_take] at h2
    have h3 : 0 < o.length := List.length_pos.mpr ho
    omega
  rw [reverseSegment, List.append_assoc, headD_append _ _ _ hTne,
    headD_eq_getD, getD_take o (i + 1) 0 0 (by omega), ← headD_eq_getD]

theorem reverseSegment_getLastD (o : List ℕ) (i j : ℕ) (hj : j + 1 < o.length) :
    (reverseSegment o i j).getLastD 0 = o.getLastD 0 := by
  have hQlen : (o.drop (j + 1)).length = o.length - (j + 1) := List.length_drop _ _
  have hQne : o.drop (j + 1) ≠ [] := by
    intro hnil; rw [hnil] at hQlen; simp at hQlen; omega
  have hBne : ((o.drop (i + 1)).take (j - i)).reverse ++ o.drop (j + 1) ≠ [] := by
    intro hnil; exact hQne (List.append_eq_nil.mp hnil).2
  rw [reverseSegment, List.append_assoc, getLastD_append _ _ _ hBne,
    getLastD_append _ _ _ hQne, getLastD_eq_getD, hQlen, getD_drop,
    getLastD_eq_getD]
  congr 1
  omega

theorem twoOptStep_ends (shops : List Shop) (floor_penalty : ℝ)
    (st : List ℕ × Bool) (ij : ℕ × ℕ) (hne : st.1 ≠ [])
    (hj : ij.2 + 1 < st.1.length) :
    (twoOptStep shops floor_penalty st ij).1.headD 0 = st.1.headD 0 ∧
      (twoOptStep shops floor_penalty st ij).1.getLastD 0 = st.1.getLastD 0 := by
  rw [twoOptStep]
  split
  · exact ⟨reverseSegment_headD _ _ _ hne, reverseSegment_getLastD _ _ _ hj⟩
  · exact ⟨rfl, rfl⟩

theorem twoOptFold_ends (shops : List Shop) (floor_penalty : ℝ) (n : ℕ) :
    ∀ (prs : List (ℕ × ℕ)), (∀ p ∈ prs, p.1 + 2 ≤ p.2 ∧ p.2 + 1 < n) →
      ∀ (st : List ℕ × Bool), st.1.length = n → 0 < n →
        (List.foldl (twoOptStep shops floor_penalty) st prs).1.headD 0 =
            st.1.headD 0 ∧
          (List.foldl (twoOptStep shops floor_penalty) st prs).1.getLastD 0 =
            st.1.getLastD 0 := by
  intro prs
  induction prs with
  | nil => intro _ st _ _; exact ⟨rfl, rfl⟩
  | cons p ps ih =>
      intro hmem st hlen hn
      rw [List.foldl_cons]
      have hne : st.1 ≠ [] := by
        intro hnil; rw [hnil] at hlen; simp at hlen; omega
      have hb := hmem p (List.mem_cons_self p ps)
      have hj : p.2 + 1 < st.1.length := by omega
      have hstep := twoOptStep_ends shops floor_penalty st p hne hj
      have hlen2 : (twoOptStep shops floor_penalty st p).1.length = n := by
        rw [twoOptStep]
        split
        · show (reverseSegment st.1 p.1 p.2).length = n
          rw [(reverseSegment_perm st.1 p.1 p.2 (by omega)).length_eq, hlen]
        · exact hlen
      have hrest := ih (fun q hq => hmem q (List.mem_cons_of_mem _ hq)) _ hlen2 hn
      exact ⟨hrest.1.trans hstep.1, hrest.2.trans hstep.2⟩

theorem twoOptLoop_ends (shops : List Shop) (floor_penalty : ℝ) (n : ℕ)
    (prs : List (ℕ × ℕ)) (hprs : ∀ p ∈ prs, p.1 + 2 ≤ p.2 ∧ p.2 + 1 < n)
    (hn : 0 < n) :
    ∀ (fuel : ℕ) (o : List ℕ), o.length = n →
      (twoOptLoop shops floor_penalty prs fuel o).headD 0 = o.headD 0 ∧
        (twoOptLoop shops floor_penalty prs fuel o).getLastD 0 = o.getLastD 0 := by
  intro fuel
  induction fuel with
  | zero => intro o _; exact ⟨rfl, rfl⟩
  | succ fuel ih =>
      intro o hlen
      rw [twoOptLoop]
      have hfold := twoOptFold_ends shops floor_penalty n prs hprs
        (o, false) hlen hn
      split
      · have hlen2 :
            (List.foldl (twoOptStep shops floor_penalty) (o, false) prs).1.length
              = n := by
          rw [(twoOptFold_fst_perm shops floor_penalty prs
            (fun p hp => by have := hprs p hp; omega) (o, false)).length_eq]
          exact hlen
        have hrest := ih _ hlen2
        exact ⟨hrest.1.trans hfold.1, hrest.2.trans hfold.2⟩
      · exact hfold

theorem two_opt_ends (o : List ℕ) (shops : List Shop) (floor_penalty : ℝ)
    (max_passes : ℤ) (ho : o ≠ []) :
    (two_opt o shops floor_penalty max_passes).headD 0 = o.headD 0 ∧
      (two_opt o shops floor_penalty max_passes).getLastD 0 = o.getLastD 0 := by
  rw [two_opt]
  split
  · exact ⟨rfl, rfl⟩
  · exact twoOptLoop_ends shops floor_penalty o.length _
      (fun p hp => twoOptPairs_bounds hp)
      (List.length_pos.mpr ho) _ _ rfl

/-- The concrete four-shop square store of the spec scenario: one floor,
corners (0,0), (10,0), (10,10), (0,10), stored in that order. -/
def sqShops : List Shop :=
  [⟨"A", 0, 0, 0⟩, ⟨"B", 0, 10, 0⟩, ⟨"C", 0, 10, 10⟩, ⟨"D", 0, 0, 10⟩]

/-- Claim C10: 2-opt refinement never changes the first or last element of a
non-empty order, and consequently the tour returned by
`compute_efficient_path` always starts at an index whose `(floor, x, y)`
tuple is lexicographically minimal over the store. -/
theorem claim_C10_frame :
    (∀ (o : List ℕ) (shops : List Shop) (floor_penalty : ℝ) (max_passes : ℤ),
        o ≠ [] →
        (two_opt o shops floor_penalty max_passes).headD 0 = o.headD 0 ∧
          (two_opt o shops floor_penalty max_passes).getLastD 0 =
            o.getLastD 0) ∧
      ∀ (shops : List Shop) (floor_penalty : ℝ), shops ≠ [] →
        ∀ k, k < shops.length →
          lexKey shops ((compute_efficient_path shops floor_penalty).1.headD 0) ≤
            lexKey shops k := by
  constructor
  · intro o shops floor_penalty max_passes ho
    exact two_opt_ends o shops floor_penalty max_passes ho
  · intro shops floor_penalty hne k hk
    have hn : 0 < shops.length := List.length_pos.mpr hne
    cases hsel : selectMin (lexKey shops) (List.range shops.length) with
    | none =>
        have h2 := (selectMin_eq_none _ _).mp hsel
        rw [List.range_eq_nil] at h2
        omega
    | some start =>
        have hnnhead : (nearest_neighbor shops floor_penalty).headD 0 = start := by
          rw [nearest_neighbor, hsel]
          rfl
        have hnne : nearest_neighbor shops floor_penalty ≠ [] := by
          rw [nearest_neighbor, hsel]
          simp
        have hce : (compute_efficient_path shops floor_penalty).1.headD 0 =
            start := by
          rw [compute_efficient_path_fst,
            (two_opt_ends _ shops floor_penalty 20 hnne).1, hnnhead]
        rw [hce]
        exact selectMin_le (lexKey shops) hsel k (List.mem_range.mpr hk)

theorem claim_C10_witness :
    (([0, 1, 2, 3] : List ℕ) ≠ [] ∧
        (two_opt [0, 1, 2, 3] sqShops 50 20).headD 0 =
          ([0, 1, 2, 3] : List ℕ).headD 0 ∧
        (two_opt [0, 1, 2, 3] sqShops 50 20).getLastD 0 =
          ([0, 1, 2, 3] : List ℕ).getLastD 0) ∧
      (sqShops ≠ [] ∧ 2 < sqShops.length ∧
        lexKey sqShops ((compute_efficient_path sqShops 50).1.headD 0) ≤
          lexKey sqShops 2) :=
  ⟨⟨by simp, claim_C10_frame.1 [0, 1, 2, 3] sqShops 50 20 (by simp)⟩,
   ⟨by simp [sqShops], by simp [sqShops],
    claim_C10_frame.2 sqShops 50 (by simp [sqShops]) 2 (by simp [sqShops])⟩⟩

theorem claim_C2_witness :
    0 ≤ (50 : ℝ) ∧
      (path_length (two_opt [0, 1, 2, 3] sqShops 50 20) sqShops 50 ≤
          path_length [0, 1, 2, 3] sqShops 50 ∧
        path_length (compute_efficient_path sqShops 50).1 sqShops 50 ≤
          path_length (nearest_neighbor sqShops 50) sqShops 50) :=
  ⟨by norm_num, claim_C2_two_opt_cost_le [0, 1, 2, 3] sqShops 50 20 (by norm_num)⟩

/- ## Concrete evaluation of the square scenario (spec section 8) -/

theorem step_cost_eval (a b : Shop) (floor_penalty v s : ℝ) (hs : 0 ≤ s)
    (harg : (a.x - b.x) ^ 2 + (a.y - b.y) ^ 2 = s ^ 2)
    (hv : s + floor_penalty * |(a.floor : ℝ) - (b.floor : ℝ)| = v) :
    step_cost a b floor_penalty = v := by
  rw [step_cost, harg, Real.sqrt_sq hs, hv]

theorem sq_c01 : step_cost (shopAt sqShops 0) (shopAt sqShops 1) 50 = 10 :=
  step_cost_eval _ _ _ _ 10 (by norm_num)
    (by show ((0:ℝ) - 10) ^ 2 + ((0:ℝ) - 0) ^ 2 = 10 ^ 2; norm_num)
    (by show (10:ℝ) + 50 * |((0:ℤ):ℝ) - ((0:ℤ):ℝ)| = 10; norm_num)

theorem sq_c03 : step_cost (shopAt sqShops 0) (shopAt sqShops 3) 50 = 10 :=
  step_cost_eval _ _ _ _ 10 (by norm_num)
    (by show ((0:ℝ) - 0) ^ 2 + ((0:ℝ) - 10) ^ 2 = 10 ^ 2; norm_num)
    (by show (10:ℝ) + 50 * |((0:ℤ):ℝ) - ((0:ℤ):ℝ)| = 10; norm_num)

theorem sq_c12 : step_cost (shopAt sqShops 1) (shopAt sqShops 2) 50 = 10 :=
  step_cost_eval _ _ _ _ 10 (by norm_num)
    (by show ((10:ℝ) - 10) ^ 2 + ((0:ℝ) - 10) ^ 2 = 10 ^ 2; norm_num)
    (by show (10:ℝ) + 50 * |((0:ℤ):ℝ) - ((0:ℤ):ℝ)| = 10; norm_num)

theorem sq_c23 : step_cost (shopAt sqShops 2) (shopAt sqShops 3) 50 = 10 :=
  step_cost_eval _ _ _ _ 10 (by norm_num)
    (by show ((10:ℝ) - 0) ^ 2 + ((10:ℝ) - 10) ^ 2 = 10 ^ 2; norm_num)
    (by show (10:ℝ) + 50 * |((0:ℤ):ℝ) - ((0:ℤ):ℝ)| = 10; norm_num)

theorem sq_c02 : step_cost (shopAt sqShops 0) (shopAt sqShops 2) 50 =
    Real.sqrt 200 := by
  rw [step_cost]
  show Real.sqrt (((0:ℝ) - 10) ^ 2 + ((0:ℝ) - 10) ^ 2) +
      50 * |((0:ℤ):ℝ) - ((0:ℤ):ℝ)| = Real.sqrt 200
  norm_num

theorem sq_c13 : step_cost (shopAt sqShops 1) (shopAt sqShops 3) 50 =
    Real.sqrt 200 := by
  rw [step_cost]
  show Real.sqrt (((10:ℝ) - 0) ^ 2 + ((0:ℝ) - 10) ^ 2) +
      50 * |((0:ℤ):ℝ) - ((0:ℤ):ℝ)| = Real.sqrt 200
  norm_num

theorem sqrt_two_hundred_gt : (10 : ℝ) < Real.sqrt 200 := by
  rw [show (200:ℝ) = 200 from rfl]
  have := Real.lt_sqrt (x := 10) (y := 200) (by norm_num)
  rw [this]
  norm_num

theorem sq_lex_not_23 : ¬ (lexKey sqShops 2 ≤ lexKey sqShops 3) := by
  have h2 : lexKey sqShops 2 = toLex ((0:ℤ), toLex ((10:ℝ), (10:ℝ))) := rfl
  have h3 : lexKey sqShops 3 = toLex ((0:ℤ), toLex ((0:ℝ), (10:ℝ))) := rfl
  rw [h2, h3]
  intro hle
  rcases (Prod.Lex.le_iff _ _).mp hle with hlt | ⟨heq, hinner⟩
  · exact absurd hlt (by norm_num)
  · rcases (Prod.Lex.le_iff _ _).mp hinner with hlt2 | ⟨heq2, _⟩
    · exact absurd hlt2 (by norm_num)
    · exact absurd heq2 (by norm_num)

theorem sq_lex_not_13 : ¬ (lexKey sqShops 1 ≤ lexKey sqShops 3) := by
  have h1 : lexKey sqShops 1 = toLex ((0:ℤ), toLex ((10:ℝ), (0:ℝ))) := rfl
  have h3 : lexKey sqShops 3 = toLex ((0:ℤ), toLex ((0:ℝ), (10:ℝ))) := rfl
  rw [h1, h3]
  intro hle
  rcases (Prod.Lex.le_iff _ _).mp hle with hlt | ⟨heq, hinner⟩
  · exact absurd hlt (by norm_num)
  · rcases (Prod.Lex.le_iff _ _).mp hinner with hlt2 | ⟨heq2, _⟩
    · exact absurd hlt2 (by norm_num)
    · exact absurd heq2 (by norm_num)

theorem sq_lex_03 : lexKey sqShops 0 ≤ lexKey sqShops 3 := by
  have h0 : lexKey sqShops 0 = toLex ((0:ℤ), toLex ((0:ℝ), (0:ℝ))) := rfl
  have h3 : lexKey sqShops 3 = toLex ((0:ℤ), toLex ((0:ℝ), (10:ℝ))) := rfl
  rw [h0, h3]
  refine (Prod.Lex.le_iff _ _).mpr (Or.inr ⟨rfl, ?_⟩)
  exact (Prod.Lex.le_iff _ _).mpr (Or.inr ⟨rfl, by norm_num⟩)

theorem sq_lexsel_3 : selectMin (lexKey sqShops) [3] = some 3 := rfl

theorem sq_lexsel_23 : selectMin (lexKey sqShops) [2, 3] = some 3 := by
  rw [selectMin]
  simp only [sq_lexsel_3]
  rw [if_neg sq_lex_not_23]

theorem sq_lexsel_123 : selectMin (lexKey sqShops) [1, 2, 3] = some 3 := by
  rw [selectMin]
  simp only [sq_lexsel_23]
  rw [if_neg sq_lex_not_13]

theorem sq_lexsel_0123 : selectMin (lexKey sqShops) [0, 1, 2, 3] = some 0 := by
  rw [selectMin]
  simp only [sq_lexsel_123]
  rw [if_pos sq_lex_03]

theorem sq_nnsel0_3 :
    selectMin (fun j => step_cost (shopAt sqShops 0) (shopAt sqShops j) 50) [3]
      = some 3 := rfl

theorem sq_nnsel0_23 :
    selectMin (fun j => step_cost (shopAt sqShops 0) (shopAt sqShops j) 50)
      [2, 3] = some 3 := by
  rw [selectMin]
  simp only [sq_nnsel0_3]
  have hc : ¬ (step_cost (shopAt sqShops 0) (shopAt sqShops 2) 50 ≤
      step_cost (shopAt sqShops 0) (shopAt sqShops 3) 50) := by
    rw [sq_c02, sq_c03]
    exact not_le.mpr sqrt_two_hundred_gt
  rw [if_neg hc]

theorem sq_nnsel0_123 :
    selectMin (fun j => step_cost (shopAt sqShops 0) (shopAt sqShops j) 50)
      [1, 2, 3] = some 1 := by
  rw [selectMin]
  simp only [sq_nnsel0_23]
  have hc : step_cost (shopAt sqShops 0) (shopAt sqShops 1) 50 ≤
      step_cost (shopAt sqShops 0) (shopAt sqShops 3) 50 := by
    rw [sq_c01, sq_c03]
  rw [if_pos hc]

theorem sq_nnsel1_23 :
    selectMin (fun j => step_cost (shopAt sqShops 1) (shopAt sqShops j) 50)
      [2, 3] = some 2 := by
  rw [selectMin]
  have h3 : selectMin
      (fun j => step_cost (shopAt sqShops 1) (shopAt sqShops j) 50) [3] =
        some 3 := rfl
  simp only [h3]
  have hc : step_cost (shopAt sqShops 1) (shopAt sqShops 2) 50 ≤
      step_cost (shopAt sqShops 1) (shopAt sqShops 3) 50 := by
    rw [sq_c12, sq_c13]
    exact le_of_lt sqrt_two_hundred_gt
  rw [if_pos hc]

theorem sq_nnloop_3_1_23 : nnLoop sqShops 50 3 1 [2, 3] = [2, 3] := by
  rw [nnLoop]
  simp only [sq_nnsel1_23]
  rfl

theorem sq_nnloop_4_0_123 : nnLoop sqShops 50 4 0 [1, 2, 3] = [1, 2, 3] := by
  rw [nnLoop]
  simp only [sq_nnsel0_123]
  have he : ([1, 2, 3] : List ℕ).erase 1 = [2, 3] := rfl
  rw [he, sq_nnloop_3_1_23]

theorem sq_nn : nearest_neighbor sqShops 50 = [0, 1, 2, 3] := by
  have hr : List.range sqShops.length = [0, 1, 2, 3] := rfl
  rw [nearest_neighbor, hr]
  simp only [sq_lexsel_0123]
  have he : ([0, 1, 2, 3] : List ℕ).erase 0 = [1, 2, 3] := rfl
  rw [he, show sqShops.length = 4 from rfl, sq_nnloop_4_0_123]

theorem twoOptLoop_of_no_improve (shops : List Shop) (floor_penalty : ℝ)
    (prs : List (ℕ × ℕ)) (fuel : ℕ) (o : List ℕ)
    (h : List.foldl (twoOptStep shops floor_penalty) (o, false) prs =
      (o, false)) :
    twoOptLoop shops floor_penalty prs (fuel + 1) o = o := by
  rw [twoOptLoop, h]
  rfl

theorem sq_step : twoOptStep sqShops 50 ([0, 1, 2, 3], false) (0, 2) =
    ([0, 1, 2, 3], false) := by
  rw [twoOptStep]
  split
  · rename_i hcond
    exfalso
    dsimp only at hcond
    have hafter : seg_cost sqShops 50 ([0, 1, 2, 3] : List ℕ) 0 2 (0 + 1)
        (2 + 1) = Real.sqrt 200 + Real.sqrt 200 := by
      show step_cost (shopAt sqShops 0) (shopAt sqShops 2) 50 +
          step_cost (shopAt sqShops 1) (shopAt sqShops 3) 50 = _
      rw [sq_c02, sq_c13]
    have hbefore : seg_cost sqShops 50 ([0, 1, 2, 3] : List ℕ) 0 (0 + 1) 2
        (2 + 1) = 20 := by
      show step_cost (shopAt sqShops 0) (shopAt sqShops 1) 50 +
          step_cost (shopAt sqShops 2) (shopAt sqShops 3) 50 = _
      rw [sq_c01, sq_c23]
      norm_num
    rw [hafter, hbefore] at hcond
    have hgt := sqrt_two_hundred_gt
    have htol : (0 : ℝ) < 1e-9 := by norm_num
    linarith
  · rfl

theorem sq_pass : List.foldl (twoOptStep sqShops 50) ([0, 1, 2, 3], false)
    [(0, 2)] = ([0, 1, 2, 3], false) := by
  rw [List.foldl_cons, List.foldl_nil, sq_step]

theorem sq_two_opt : two_opt [0, 1, 2, 3] sqShops 50 20 = [0, 1, 2, 3] := by
  rw [two_opt]
  rw [if_neg (by norm_num : ¬ (([0, 1, 2, 3] : List ℕ).length < 4))]
  have hp : twoOptPairs (([0, 1, 2, 3] : List ℕ).length) = [(0, 2)] := rfl
  rw [hp]
  show twoOptLoop sqShops 50 [(0, 2)] (19 + 1) [0, 1, 2, 3] = [0, 1, 2, 3]
  exact twoOptLoop_of_no_improve sqShops 50 [(0, 2)] 19 [0, 1, 2, 3] sq_pass

theorem sq_pl : path_length [0, 1, 2, 3] sqShops 50 = 30 := by
  rw [path_length_cons_cons, path_length_cons_cons, path_length_cons_cons,
    path_length_single, sq_c01, sq_c12, sq_c23]
  norm_num

/-- Claim C7: on the one-floor square store (corners (0,0), (10,0), (10,10),
(0,10) in store order) with `floor_penalty = 50`, nearest neighbour starts at
the first shop and visits the shops in store order, 2-opt changes nothing, and
`compute_efficient_path` returns the order `[0, 1, 2, 3]` with total cost 30. -/
theorem claim_C7_square_scenario :
    nearest_neighbor sqShops 50 = [0, 1, 2, 3] ∧
      two_opt [0, 1, 2, 3] sqShops 50 20 = [0, 1, 2, 3] ∧
      compute_efficient_path sqShops 50 = ([0, 1, 2, 3], 30) := by
  refine ⟨sq_nn, sq_two_opt, ?_⟩
  show (two_opt (nearest_neighbor sqShops 50) sqShops 50 20,
      path_length (two_opt (nearest_neighbor sqShops 50) sqShops 50 20)
        sqShops 50) = ([0, 1, 2, 3], 30)
  rw [sq_nn, sq_two_opt, sq_pl]

/- ## A five-shop store on which a single 2-opt pass does not converge -/

/-- Five shops with `y = 0`: `(x, floor)` pairs (0,0), (2,0), (0,2), (2,2),
(1,0).  With `floor_penalty = 1` every step cost is an integer. -/
def zigShops : List Shop :=
  [⟨"S0", 0, 0, 0⟩, ⟨"S1", 0, 2, 0⟩, ⟨"S2", 2, 0, 0⟩, ⟨"S3", 2, 2, 0⟩,
   ⟨"S4", 0, 1, 0⟩]

theorem zig_c01 : step_cost (shopAt zigShops 0) (shopAt zigShops 1) 1 = 2 :=
  step_cost_eval _ _ _ _ 2 (by norm_num)
    (by show ((0:ℝ) - 2) ^ 2 + ((0:ℝ) - 0) ^ 2 = 2 ^ 2; norm_num)
    (by show (2:ℝ) + 1 * |((0:ℤ):ℝ) - ((0:ℤ):ℝ)| = 2; norm_num)

theorem zig_c02 : step_cost (shopAt zigShops 0) (shopAt zigShops 2) 1 = 2 :=
  step_cost_eval _ _ _ _ 0 (by norm_num)
    (by show ((0:ℝ) - 0) ^ 2 + ((0:ℝ) - 0) ^ 2 = 0 ^ 2; norm_num)
    (by show (0:ℝ) + 1 * |((0:ℤ):ℝ) - ((2:ℤ):ℝ)| = 2; norm_num)

theorem zig_c03 : step_cost (shopAt zigShops 0) (shopAt zigShops 3) 1 = 4 :=
  step_cost_eval _ _ _ _ 2 (by norm_num)
    (by show ((0:ℝ) - 2) ^ 2 + ((0:ℝ) - 0) ^ 2 = 2 ^ 2; norm_num)
    (by show (2:ℝ) + 1 * |((0:ℤ):ℝ) - ((2:ℤ):ℝ)| = 4; norm_num)

theorem zig_c12 : step_cost (shopAt zigShops 1) (shopAt zigShops 2) 1 = 4 :=
  step_cost_eval _ _ _ _ 2 (by norm_num)
    (by show ((2:ℝ) - 0) ^ 2 + ((0:ℝ) - 0) ^ 2 = 2 ^ 2; norm_num)
    (by show (2:ℝ) + 1 * |((0:ℤ):ℝ) - ((2:ℤ):ℝ)| = 4; norm_num)

theorem zig_c21 : step_cost (shopAt zigShops 2) (shopAt zigShops 1) 1 = 4 :=
  step_cost_eval _ _ _ _ 2 (by norm_num)
    (by show ((0:ℝ) - 2) ^ 2 + ((0:ℝ) - 0) ^ 2 = 2 ^ 2; norm_num)
    (by show (2:ℝ) + 1 * |((2:ℤ):ℝ) - ((0:ℤ):ℝ)| = 4; norm_num)

theorem zig_c13 : step_cost (shopAt zigShops 1) (shopAt zigShops 3) 1 = 2 :=
  step_cost_eval _ _ _ _ 0 (by norm_num)
    (by show ((2:ℝ) - 2) ^ 2 + ((0:ℝ) - 0) ^ 2 = 0 ^ 2; norm_num)
    (by show (0:ℝ) + 1 * |((0:ℤ):ℝ) - ((2:ℤ):ℝ)| = 2; norm_num)

theorem zig_c31 : step_cost (shopAt zigShops 3) (shopAt zigShops 1) 1 = 2 :=
  step_cost_eval _ _ _ _ 0 (by norm_num)
    (by show ((2:ℝ) - 2) ^ 2 + ((0:ℝ) - 0) ^ 2 = 0 ^ 2; norm_num)
    (by show (0:ℝ) + 1 * |((2:ℤ):ℝ) - ((0:ℤ):ℝ)| = 2; norm_num)

theorem zig_c14 : step_cost (shopAt zigShops 1) (shopAt zigShops 4) 1 = 1 :=
  step_cost_eval _ _ _ _ 1 (by norm_num)
    (by show ((2:ℝ) - 1) ^ 2 + ((0:ℝ) - 0) ^ 2 = 1 ^ 2; norm_num)
    (by show (1:ℝ) + 1 * |((0:ℤ):ℝ) - ((0:ℤ):ℝ)| = 1; norm_num)

theorem zig_c23 : step_cost (shopAt zigShops 2) (shopAt zigShops 3) 1 = 2 :=
  step_cost_eval _ _ _ _ 2 (by norm_num)
    (by show ((0:ℝ) - 2) ^ 2 + ((0:ℝ) - 0) ^ 2 = 2 ^ 2; norm_num)
    (by show (2:ℝ) + 1 * |((2:ℤ):ℝ) - ((2:ℤ):ℝ)| = 2; norm_num)

theorem zig_c32 : step_cost (shopAt zigShops 3) (shopAt zigShops 2) 1 = 2 :=
  step_cost_eval _ _ _ _ 2 (by norm_num)
    (by show ((2:ℝ) - 0) ^ 2 + ((0:ℝ) - 0) ^ 2 = 2 ^ 2; norm_num)
    (by show (2:ℝ) + 1 * |((2:ℤ):ℝ) - ((2:ℤ):ℝ)| = 2; norm_num)

theorem zig_c24 : step_cost (shopAt zigShops 2) (shopAt zigShops 4) 1 = 3 :=
  step_cost_eval _ _ _ _ 1 (by norm_num)
    (by show ((0:ℝ) - 1) ^ 2 + ((0:ℝ) - 0) ^ 2 = 1 ^ 2; norm_num)
    (by show (1:ℝ) + 1 * |((2:ℤ):ℝ) - ((0:ℤ):ℝ)| = 3; norm_num)

theorem zig_c34 : step_cost (shopAt zigShops 3) (shopAt zigShops 4) 1 = 3 :=
  step_cost_eval _ _ _ _ 1 (by norm_num)
    (by show ((2:ℝ) - 1) ^ 2 + ((0:ℝ) - 0) ^ 2 = 1 ^ 2; norm_num)
    (by show (1:ℝ) + 1 * |((2:ℤ):ℝ) - ((0:ℤ):ℝ)| = 3; norm_num)

theorem zig_step1 : twoOptStep zigShops 1 ([0, 1, 2, 3, 4], false) (0, 2) =
    ([0, 1, 2, 3, 4], false) := by
  rw [twoOptStep]
  split
  · rename_i hcond
    exfalso
    dsimp only at hcond
    have ha : seg_cost zigShops 1 ([0, 1, 2, 3, 4] : List ℕ) 0 2 (0 + 1)
        (2 + 1) = 4 := by
      show step_cost (shopAt zigShops 0) (shopAt zigShops 2) 1 +
          step_cost (shopAt zigShops 1) (shopAt zigShops 3) 1 = 4
      rw [zig_c02, zig_c13]
      norm_num
    have hb : seg_cost zigShops 1 ([0, 1, 2, 3, 4] : List ℕ) 0 (0 + 1) 2
        (2 + 1) = 4 := by
      show step_cost (shopAt zigShops 0) (shopAt zigShops 1) 1 +
          step_cost (shopAt zigShops 2) (shopAt zigShops 3) 1 = 4
      rw [zig_c01, zig_c23]
      norm_num
    rw [ha, hb] at hcond
    norm_num at hcond
  · rfl

theorem zig_step2 : twoOptStep zigShops 1 ([0, 1, 2, 3, 4], false) (0, 3) =
    ([0, 1, 2, 3, 4], false) := by
  rw [twoOptStep]
  split
  · rename_i hcond
    exfalso
    dsimp only at hcond
    have ha : seg_cost zigShops 1 ([0, 1, 2, 3, 4] : List ℕ) 0 3 (0 + 1)
        (3 + 1) = 5 := by
      show step_cost (shopAt zigShops 0) (shopAt zigShops 3) 1 +
          step_cost (shopAt zigShops 1) (shopAt zigShops 4) 1 = 5
      rw [zig_c03, zig_c14]
      norm_num
    have hb : seg_cost zigShops 1 ([0, 1, 2, 3, 4] : List ℕ) 0 (0 + 1) 3
        (3 + 1) = 5 := by
      show step_cost (shopAt zigShops 0) (shopAt zigShops 1) 1 +
          step_cost (shopAt zigShops 3) (shopAt zigShops 4) 1 = 5
      rw [zig_c01, zig_c34]
      norm_num
    rw [ha, hb] at hcond
    norm_num at hcond
  · rfl

theorem zig_step3 : twoOptStep zigShops 1 ([0, 1, 2, 3, 4], false) (1, 3) =
    ([0, 1, 3, 2, 4], true) := by
  have ha : seg_cost zigShops 1 ([0, 1, 2, 3, 4] : List ℕ) 1 3 (1 + 1)
      (3 + 1) = 5 := by
    show step_cost (shopAt zigShops 1) (shopAt zigShops 3) 1 +
        step_cost (shopAt zigShops 2) (shopAt zigShops 4) 1 = 5
    rw [zig_c13, zig_c24]
    norm_num
  have hb : seg_cost zigShops 1 ([0, 1, 2, 3, 4] : List ℕ) 1 (1 + 1) 3
      (3 + 1) = 7 := by
    show step_cost (shopAt zigShops 1) (shopAt zigShops 2) 1 +
        step_cost (shopAt zigShops 3) (shopAt zigShops 4) 1 = 7
    rw [zig_c12, zig_c34]
    norm_num
  rw [twoOptStep]
  split
  · rfl
  · rename_i hcond
    exfalso
    dsimp only at hcond
    rw [ha, hb] at hcond
    norm_num at hcond

theorem zig_step4 : twoOptStep zigShops 1 ([0, 1, 3, 2, 4], false) (0, 2) =
    ([0, 1, 3, 2, 4], false) := by
  rw [twoOptStep]
  split
  · rename_i hcond
    exfalso
    dsimp only at hcond
    have ha : seg_cost zigShops 1 ([0, 1, 3, 2, 4] : List ℕ) 0 2 (0 + 1)
        (2 + 1) = 8 := by
      show step_cost (shopAt zigShops 0) (shopAt zigShops 3) 1 +
          step_cost (shopAt zigShops 1) (shopAt zigShops 2) 1 = 8
      rw [zig_c03, zig_c12]
      norm_num
    have hb : seg_cost zigShops 1 ([0, 1, 3, 2, 4] : List ℕ) 0 (0 + 1) 2
        (2 + 1) = 4 := by
      show step_cost (shopAt zigShops 0) (shopAt zigShops 1) 1 +
          step_cost (shopAt zigShops 3) (shopAt zigShops 2) 1 = 4
      rw [zig_c01, zig_c32]
      norm_num
    rw [ha, hb] at hcond
    norm_num at hcond
  · rfl

theorem zig_step5 : twoOptStep zigShops 1 ([0, 1, 3, 2, 4], false) (0, 3) =
    ([0, 2, 3, 1, 4], true) := by
  have ha : seg_cost zigShops 1 ([0, 1, 3, 2, 4] : List ℕ) 0 3 (0 + 1)
      (3 + 1) = 3 := by
    show step_cost (shopAt zigShops 0) (shopAt zigShops 2) 1 +
        step_cost (shopAt zigShops 1) (shopAt zigShops 4) 1 = 3
    rw [zig_c02, zig_c14]
    norm_num
  have hb : seg_cost zigShops 1 ([0, 1, 3, 2, 4] : List ℕ) 0 (0 + 1) 3
      (3 + 1) = 5 := by
    show step_cost (shopAt zigShops 0) (shopAt zigShops 1) 1 +
        step_cost (shopAt zigShops 2) (shopAt zigShops 4) 1 = 5
    rw [zig_c01, zig_c24]
    norm_num
  rw [twoOptStep]
  split
  · rfl
  · rename_i hcond
    exfalso
    dsimp only at hcond
    rw [ha, hb] at hcond
    norm_num at hcond

theorem zig_step6 : twoOptStep zigShops 1 ([0, 2, 3, 1, 4], true) (1, 3) =
    ([0, 2, 3, 1, 4], true) := by
  rw [twoOptStep]
  split
  · rename_i hcond
    exfalso
    dsimp only at hcond
    have ha : seg_cost zigShops 1 ([0, 2, 3, 1, 4] : List ℕ) 1 3 (1 + 1)
        (3 + 1) = 7 := by
      show step_cost (shopAt zigShops 2) (shopAt zigShops 1) 1 +
          step_cost (shopAt zigShops 3) (shopAt zigShops 4) 1 = 7
      rw [zig_c21, zig_c34]
      norm_num
    have hb : seg_cost zigShops 1 ([0, 2, 3, 1, 4] : List ℕ) 1 (1 + 1) 3
        (3 + 1) = 3 := by
      show step_cost (shopAt zigShops 2) (shopAt zigShops 3) 1 +
          step_cost (shopAt zigShops 1) (shopAt zigShops 4) 1 = 3
      rw [zig_c23, zig_c14]
      norm_num
    rw [ha, hb] at hcond
    norm_num at hcond
  · rfl

theorem zig_pass1 : List.foldl (twoOptStep zigShops 1) ([0, 1, 2, 3, 4], false)
    [(0, 2), (0, 3), (1, 3)] = ([0, 1, 3, 2, 4], true) := by
  rw [List.foldl_cons, zig_step1, List.foldl_cons, zig_step2, List.foldl_cons,
    zig_step3, List.foldl_nil]

theorem zig_pass2 : List.foldl (twoOptStep zigShops 1) ([0, 1, 3, 2, 4], false)
    [(0, 2), (0, 3), (1, 3)] = ([0, 2, 3, 1, 4], true) := by
  rw [List.foldl_cons, zig_step4, List.foldl_cons, zig_step5, List.foldl_cons,
    zig_step6, List.foldl_nil]

theorem zig_two_opt1 : two_opt [0, 1, 2, 3, 4] zigShops 1 1 = [0, 1, 3, 2, 4] := by
  rw [two_opt]
  rw [if_neg (by norm_num : ¬ (([0, 1, 2, 3, 4] : List ℕ).length < 4))]
  have hp : twoOptPairs (([0, 1, 2, 3, 4] : List ℕ).length) =
      [(0, 2), (0, 3), (1, 3)] := rfl
  rw [hp]
  show twoOptLoop zigShops 1 [(0, 2), (0, 3), (1, 3)] (0 + 1) [0, 1, 2, 3, 4] =
    [0, 1, 3, 2, 4]
  rw [twoOptLoop, zig_pass1]
  rfl

theorem zig_two_opt2 : two_opt [0, 1, 3, 2, 4] zigShops 1 1 = [0, 2, 3, 1, 4] := by
  rw [two_opt]
  rw [if_neg (by norm_num : ¬ (([0, 1, 3, 2, 4] : List ℕ).length < 4))]
  have hp : twoOptPairs (([0, 1, 3, 2, 4] : List ℕ).length) =
      [(0, 2), (0, 3), (1, 3)] := rfl
  rw [hp]
  show twoOptLoop zigShops 1 [(0, 2), (0, 3), (1, 3)] (0 + 1) [0, 1, 3, 2, 4] =
    [0, 2, 3, 1, 4]
  rw [twoOptLoop, zig_pass2]
  rfl

theorem zig_pl1 : path_length [0, 1, 3, 2, 4] zigShops 1 = 9 := by
  rw [path_length_cons_cons, path_length_cons_cons, path_length_cons_cons,
    path_length_cons_cons, path_length_single, zig_c01, zig_c13, zig_c32,
    zig_c24]
  norm_num

theorem zig_pl2 : path_length [0, 2, 3, 1, 4] zigShops 1 = 7 := by
  rw [path_length_cons_cons, path_length_cons_cons, path_length_cons_cons,
    path_length_cons_cons, path_length_single, zig_c02, zig_c23, zig_c31,
    zig_c14]
  norm_num

/-- Claim C4 fails as stated: on `zigShops` with `max_passes = 1`, the first
refinement stops with the pass budget exhausted, and running 2-opt again on its
output strictly decreases the total cost (9 down to 7). -/
theorem claim_C4_counterexample :
    path_length
        (two_opt (two_opt [0, 1, 2, 3, 4] zigShops 1 1) zigShops 1 1)
        zigShops 1 <
      path_length (two_opt [0, 1, 2, 3, 4] zigShops 1 1) zigShops 1 := by
  rw [zig_two_opt1, zig_two_opt2, zig_pl1, zig_pl2]
  norm_num

/-- A pass that reports no improvement never changed the order (each
non-improving comparison returns its state unchanged, and an improving one
sets the flag permanently). -/
theorem twoOptFold_no_improve (shops : List Shop) (floor_penalty : ℝ) :
    ∀ (prs : List (ℕ × ℕ)) (st : List ℕ × Bool),
      (List.foldl (twoOptStep shops floor_penalty) st prs).2 = false →
      List.foldl (twoOptStep shops floor_penalty) st prs = st ∧
        st.2 = false := by
  intro prs
  induction prs with
  | nil => intro st h; exact ⟨rfl, h⟩
  | cons p ps ih =>
      intro st h
      rw [List.foldl_cons] at h ⊢
      have h2 := ih (twoOptStep shops floor_penalty st p) h
      by_cases hc : seg_cost shops floor_penalty st.1 p.1 p.2 (p.1 + 1)
          (p.2 + 1) + 1e-9 <
          seg_cost shops floor_penalty st.1 p.1 (p.1 + 1) p.2 (p.2 + 1)
      · exfalso
        have hstep : twoOptStep shops floor_penalty st p =
            (reverseSegment st.1 p.1 p.2, true) := by
          rw [twoOptStep, if_pos hc]
        rw [hstep] at h2
        exact absurd h2.2 (by simp)
      · have hstep : twoOptStep shops floor_penalty st p = st := by
          rw [twoOptStep, if_neg hc]
        rw [hstep] at h2 ⊢
        exact h2

theorem twoOptLoop_fixpoint (shops : List Shop) (floor_penalty : ℝ)
    (prs : List (ℕ × ℕ)) (o : List ℕ)
    (h : List.foldl (twoOptStep shops floor_penalty) (o, false) prs =
      (o, false)) :
    ∀ fuel, twoOptLoop shops floor_penalty prs fuel o = o := by
  intro fuel
  cases fuel with
  | zero => rfl
  | succ fuel => exact twoOptLoop_of_no_improve shops floor_penalty prs fuel o h

/-- Claim C4 (amended): if the first refinement converged — its final order is
a fixpoint of one full scan, which is exactly what happens when the `while`
loop exits because a pass made no improving reversal — then running 2-opt
again with the same inputs returns the very same order, hence the same total
cost.  When `max_passes` is exhausted before convergence this fails: a second
run can strictly decrease the cost (see the counterexample). -/
theorem claim_C4_idempotent_when_converged (o : List ℕ) (shops : List Shop)
    (floor_penalty : ℝ) (max_passes : ℤ)
    (hconv : List.foldl (twoOptStep shops floor_penalty)
        (two_opt o shops floor_penalty max_passes, false)
        (twoOptPairs (two_opt o shops floor_penalty max_passes).length) =
      (two_opt o shops floor_penalty max_passes, false)) :
    two_opt (two_opt o shops floor_penalty max_passes) shops floor_penalty
        max_passes = two_opt o shops floor_penalty max_passes ∧
      path_length
          (two_opt (two_opt o shops floor_penalty max_passes) shops
            floor_penalty max_passes) shops floor_penalty =
        path_length (two_opt o shops floor_penalty max_passes) shops
          floor_penalty := by
  have hmain : two_opt (two_opt o shops floor_penalty max_passes) shops
      floor_penalty max_passes = two_opt o shops floor_penalty max_passes := by
    rw [two_opt]
    split
    · rfl
    · exact twoOptLoop_fixpoint shops floor_penalty _ _ hconv _
  exact ⟨hmain, by rw [hmain]⟩

theorem claim_C4_witness :
    List.foldl (twoOptStep sqShops 50) (two_opt [0, 1, 2, 3] sqShops 50 20, false)
        (twoOptPairs (two_opt [0, 1, 2, 3] sqShops 50 20).length) =
      (two_opt [0, 1, 2, 3] sqShops 50 20, false) ∧
      two_opt (two_opt [0, 1, 2, 3] sqShops 50 20) sqShops 50 20 =
        two_opt [0, 1, 2, 3] sqShops 50 20 ∧
      path_length
          (two_opt (two_opt [0, 1, 2, 3] sqShops 50 20) sqShops 50 20)
          sqShops 50 =
        path_length (two_opt [0, 1, 2, 3] sqShops 50 20) sqShops 50 := by
  have hconv : List.foldl (twoOptStep sqShops 50)
      (two_opt [0, 1, 2, 3] sqShops 50 20, false)
      (twoOptPairs (two_opt [0, 1, 2, 3] sqShops 50 20).length) =
      (two_opt [0, 1, 2, 3] sqShops 50 20, false) := by
    rw [sq_two_opt]
    exact sq_pass
  have hres := claim_C4_idempotent_when_converged [0, 1, 2, 3] sqShops 50 20 hconv
  exact ⟨hconv, hres.1, hres.2⟩

/- ## No configuration validation exists in the engine -/

def pairShops : List Shop := [⟨"A", 0, 0, 0⟩, ⟨"B", 0, 1, 0⟩]

theorem pair_lex_01 : lexKey pairShops 0 ≤ lexKey pairShops 1 := by
  have h0 : lexKey pairShops 0 = toLex ((0:ℤ), toLex ((0:ℝ), (0:ℝ))) := rfl
  have h1 : lexKey pairShops 1 = toLex ((0:ℤ), toLex ((1:ℝ), (0:ℝ))) := rfl
  rw [h0, h1]
  refine (Prod.Lex.le_iff _ _).mpr (Or.inr ⟨rfl, ?_⟩)
  exact (Prod.Lex.le_iff _ _).mpr (Or.inl (by norm_num))

theorem pair_nn : nearest_neighbor pairShops (-5) = [0, 1] := by
  have hr : List.range pairShops.length = [0, 1] := rfl
  rw [nearest_neighbor, hr]
  have hsel : selectMin (lexKey pairShops) [0, 1] = some 0 := by
    rw [selectMin]
    have h1 : selectMin (lexKey pairShops) [1] = some 1 := rfl
    simp only [h1]
    rw [if_pos pair_lex_01]
  simp only [hsel]
  rfl

theorem pair_c01 :
    step_cost (shopAt pairShops 0) (shopAt pairShops 1) (-5) = 1 :=
  step_cost_eval _ _ _ _ 1 (by norm_num)
    (by show ((0:ℝ) - 1) ^ 2 + ((0:ℝ) - 0) ^ 2 = 1 ^ 2; norm_num)
    (by show (1:ℝ) + (-5) * |((0:ℤ):ℝ) - ((0:ℤ):ℝ)| = 1; norm_num)

/-- Claim C5 fails as stated: with the negative floor penalty `-5` the engine
happily returns the tour `[0, 1]` (cost 1) instead of failing, and with
`max_passes = 0` the refinement silently returns its input order. -/
theorem claim_C5_counterexample :
    compute_efficient_path pairShops (-5) = ([0, 1], 1) ∧
      two_opt [0, 1, 2, 3, 4] zigShops 1 0 = [0, 1, 2, 3, 4] := by
  constructor
  · show (two_opt (nearest_neighbor pairShops (-5)) pairShops (-5) 20,
        path_length
          (two_opt (nearest_neighbor pairShops (-5)) pairShops (-5) 20)
          pairShops (-5)) = ([0, 1], 1)
    rw [pair_nn]
    have h2 : two_opt [0, 1] pairShops (-5) 20 = [0, 1] := by
      rw [two_opt, if_pos (by norm_num : ([0, 1] : List ℕ).length < 4)]
    rw [h2]
    have h3 : path_length [0, 1] pairShops (-5) = 1 := by
      rw [path_length_cons_cons, path_length_single, pair_c01]
      norm_num
    rw [h3]
  · rfl

/-- Claim C5 (amended): the engine performs no configuration validation.
With a non-positive `max_passes` the 2-opt refinement returns its input order
unchanged, and with a negative `floor_penalty` the entry point still returns a
tour — a permutation of `0 .. n-1` — rather than any `InvalidConfiguration`
failure. -/
theorem claim_C5_no_validation (o : List ℕ) (shops : List Shop)
    (floor_penalty : ℝ) (max_passes : ℤ) (hmp : max_passes ≤ 0)
    (hfp : floor_penalty < 0) :
    two_opt o shops floor_penalty max_passes = o ∧
      (compute_efficient_path shops floor_penalty).1.Perm
        (List.range shops.length) := by
  constructor
  · rw [two_opt]
    split
    · rfl
    · rw [Int.toNat_of_nonpos hmp]
      rfl
  · rw [compute_efficient_path_fst]
    exact (two_opt_perm _ _ _ _).trans (nearest_neighbor_perm _ _)

theorem claim_C5_witness :
    ((0 : ℤ) ≤ 0 ∧ (-5 : ℝ) < 0) ∧
      (two_opt [0, 1, 2, 3, 4] pairShops (-5) 0 = [0, 1, 2, 3, 4] ∧
        (compute_efficient_path pairShops (-5)).1.Perm
          (List.range pairShops.length)) :=
  ⟨⟨le_refl 0, by norm_num⟩,
   claim_C5_no_validation [0, 1, 2, 3, 4] pairShops (-5) 0 (le_refl 0)
     (by norm_num)⟩
